import Mathlib

/-!
# Expense-ledger core: shallow embedding and verification

Shallow embedding of the expense tracker's ledger store and analytics layer
(`src/Expense Tracker/src` together with the summary/report/update command
modules).  JS numbers are modelled as `ℚ`, JS strings as Lean `String`
(`List Char` where the claims are about the characters), JS objects used as
maps as insertion-ordered association lists, and the possibly-absent
`categories` field of the persisted document as an `Option` (JS distinguishes
a missing/`undefined` field, which is falsy, from a present-but-empty object
`{}`, which is truthy).  Fallible commands return `Except`; a command that
throws before `writeData` leaves the persisted document unchanged, which the
embedding renders by returning the error without a new store.
-/

namespace ExpenseTracker

/-- A parsed calendar date, the result of `new Date(expense.date)` on the
stored ISO timestamp: `.getFullYear()`, `.getMonth() + 1` and `.getDate()`. -/
structure Date where
  year : Nat
  month : Nat
  day : Nat
deriving Repr, DecidableEq

/-- An expense record as persisted in the `expenses` array of the document
(fields `id, description, amount, category, date, tags, notes`). -/
structure Expense where
  id : Nat
  description : String
  amount : ℚ
  category : String
  date : Date
  tags : List String
  notes : String
deriving Repr, DecidableEq

/-- A category registry entry (`{description, color}`), keyed by name. -/
structure Category where
  description : String
  color : String
deriving Repr, DecidableEq

/-- The persisted store aggregate: `{expenses, categories, budgets, metadata}`.
`categories` is `Option`al because the JS code distinguishes the field being
absent (falsy, triggers default seeding) from present-but-empty (`{}`, truthy).
`budgets` is year → month → amount; the code reads it only through
`data.budgets?.[year]?.[month] || 0`, so absence and emptiness coincide and a
plain association list suffices.  `lastId` is `metadata.lastId`. -/
structure Store where
  expenses : List Expense
  categories : Option (List (String × Category))
  budgets : List (Nat × List (Nat × ℚ))
  lastId : Nat
deriving Repr, DecidableEq

/-- `data.budgets?.[year]?.[month] || 0` (checkBudgetStatus / viewBudget). -/
def budgetFor (s : Store) (year month : Nat) : ℚ :=
  (((s.budgets.lookup year).bind fun mm => mm.lookup month).getD 0)

/-! ## Monthly filters (Analytics Engine)

Three distinct filter predicates occur in the source.  `summary`
(commands/summary module, lines 65–68) and `exportExpenses`
(commands/export.js lines 87–90) compare only the month of the parsed date;
`monthlyReport`, `compareMonths` (commands/report module) and
`checkBudgetStatus` (commands/export.js lines 272–276) additionally compare
the year with the current system-clock year. -/

/-- The month filter of `summary`: `expenseDate.getMonth() + 1 === monthNum`. -/
def summaryMonthFilter (monthNum : Nat) (expenses : List Expense) : List Expense :=
  expenses.filter fun expense => expense.date.month == monthNum

/-- The month filter of `exportExpenses`: `expenseDate.getMonth() + 1 === monthNum`. -/
def exportMonthFilter (monthNum : Nat) (expenses : List Expense) : List Expense :=
  expenses.filter fun expense => expense.date.month == monthNum

/-- The month-and-year filter used by `monthlyReport`, `compareMonths` and
`checkBudgetStatus`: `getMonth() + 1 === m && getFullYear() === year`. -/
def monthYearFilter (m year : Nat) (expenses : List Expense) : List Expense :=
  expenses.filter fun expense =>
    expense.date.month == m && expense.date.year == year

/-- `expenses.reduce((sum, expense) => sum + expense.amount, 0)`. -/
def totalAmount (expenses : List Expense) : ℚ :=
  expenses.foldl (fun sum expense => sum + expense.amount) 0

/-! ## Budget status (commands/export.js `checkBudgetStatus`) -/

/-- Result of `checkBudgetStatus`: either the early `No budget set for month m`
return (taken before any division), or the computed figures together with the
warning classification printed at the end. -/
inductive BudgetStatus where
  | noBudget (month : Nat)
  | report (budget spent remaining usedPct : ℚ)
      (exceeded nearLimit : Bool)
deriving Repr, DecidableEq

/-- `checkBudgetStatus(month)`: `currentMonth = month || new Date().getMonth()+1`,
`budget = data.budgets?.[year]?.[currentMonth] || 0`; if the budget is 0 the
function prints `No budget set` and returns; otherwise it filters the month's
expenses of the current year, sums them, and computes
`remaining = budget - totalSpent` and `percentageUsed = totalSpent / budget * 100`,
warning when `remaining < 0` (exceeded) or `percentageUsed > 80` (near limit). -/
def checkBudgetStatus (s : Store) (month : Option Nat)
    (currentYear currentMonth : Nat) : BudgetStatus :=
  let m := month.getD currentMonth
  let budget := budgetFor s currentYear m
  if budget = 0 then
    .noBudget m
  else
    let monthlyExpenses := monthYearFilter m currentYear s.expenses
    let totalSpent := totalAmount monthlyExpenses
    let remaining := budget - totalSpent
    let percentageUsed := totalSpent / budget * 100
    .report budget totalSpent remaining percentageUsed
      (decide (remaining < 0)) (decide (percentageUsed > 80))

/-! ## Ledger store operations -/

/-- `getNextId()` (utils/storage.js lines 97–100):
`(data.metadata.lastId || 0) + 1`.  On `Nat`, `lastId || 0` is `lastId`. -/
def getNextId (s : Store) : Nat :=
  s.lastId + 1

/-- Error classification of the `ValidationError`s thrown by the `add`
command: the `No categories defined` throw when the document has no
`categories` field, the `Category '...' does not exist` throw, and a failure
of `expense.validate()`. -/
inductive AddError where
  | noCategories
  | categoryNotFound
  | invalidExpense
deriving Repr, DecidableEq

/-- Tag-list construction shared by `add` and `update`:
`tags.split(',')` with each part trimmed and appended unless already present
(`Expense.addTag`, index.js lines 670–674, and the update module's inline
dedup).  An absent or empty (falsy) tags option yields no tags. -/
def parseTags (tags : Option String) : List String :=
  match tags with
  | none => []
  | some t =>
    if t = "" then []
    else
      (t.splitOn ",").foldl
        (fun acc tag =>
          let trimmedTag := tag.trim
          if trimmedTag ∈ acc then acc else acc ++ [trimmedTag]) []

/-- `DEFAULT_PKR_RATE = 280` and `CurrencyConverter`'s
`convertToUsd(pkr) = pkr / rate`, `convertToPkr(usd) = usd * rate`. -/
def PKR_RATE : ℚ := 280

/-- `convertToUsd` of the `CurrencyConverter` with the default rate. -/
def convertToUsd (pkrAmount : ℚ) : ℚ :=
  pkrAmount / PKR_RATE

/-- `convertToPkr` of the `CurrencyConverter` with the default rate. -/
def convertToPkr (usdAmount : ℚ) : ℚ :=
  usdAmount * PKR_RATE

/-- `Expense.validate()` of the `models/expense` module (index.js lines
644–664): the amount must be a positive number, the stored — already
trimmed — description must be non-empty and at least 3 characters long.
The remaining checks (category is a string, the ISO date parses) always
hold in this embedding, where those fields are typed. -/
def validExpense (description : String) (amount : ℚ) : Bool :=
  0 < amount && description ≠ "" && 3 ≤ description.length

/-- The `add` command (commands/add.js lines 57–103).  Validation order as in
the source: the `categories`-field check, the category-existence check (the
sentinel `uncategorized` is exempt), currency conversion, expense
construction — the `Expense` constructor stores `description.trim()`
(index.js line 631) — with tags and notes, `expense.validate()`, then
`expense.id = getNextId()`, `expenses.push(expense)`,
`metadata.lastId = expense.id`, `writeData`.  An error is thrown before
`writeData`, so the persisted store is unchanged on every error path. -/
def addExpense (s : Store) (description : String) (amount : ℚ) (category : String)
    (tags notes : Option String) (isPKR : Bool) (now : Date) :
    Except AddError (Store × Expense) :=
  match s.categories with
  | none => .error .noCategories
  | some cats =>
    if category ≠ "uncategorized" ∧ (cats.lookup category).isNone then
      .error .categoryNotFound
    else
      let usdAmount := if isPKR then convertToUsd amount else amount
      let expense0 : Expense :=
        { id := 0, description := description.trim, amount := usdAmount,
          category := category, date := now,
          tags := parseTags tags, notes := notes.getD "" }
      if ¬ validExpense description.trim usdAmount then .error .invalidExpense
      else
        let newId := getNextId s
        let expense := { expense0 with id := newId }
        .ok ({ s with expenses := s.expenses ++ [expense], lastId := newId },
             expense)

/-- The persisted document after running `add`: on an error path the command
exits before `writeData`, so the old document remains. -/
def addPersisted (s : Store) (description : String) (amount : ℚ) (category : String)
    (tags notes : Option String) (isPKR : Bool) (now : Date) : Store :=
  match addExpense s description amount category tags notes isPKR now with
  | .ok (s', _) => s'
  | .error _ => s

/-- The `delete` command (commands/delete.js lines 50–71): find the first
expense with the given id (`findIndex`), error if absent, otherwise `splice`
it out and write. -/
def deleteExpense (s : Store) (expenseId : Nat) : Except Unit Store :=
  if s.expenses.any (fun e => e.id == expenseId) then
    .ok { s with expenses := s.expenses.eraseP (fun e => e.id == expenseId) }
  else
    .error ()

/-! ## Operation traces for the ID-monotonicity invariant -/

/-- One CLI invocation touching the expense list: an `add` or a `delete`. -/
inductive Op where
  | add (description : String) (amount : ℚ) (category : String)
      (tags notes : Option String) (isPKR : Bool) (now : Date)
  | del (expenseId : Nat)

/-- Run one operation against the persisted store; a failed operation leaves
the store unchanged (the command exits before `writeData`).  The second
component is the id assigned by a successful `add`, if any. -/
def stepOp (s : Store) : Op → Store × Option Nat
  | .add description amount category tags notes isPKR now =>
    match addExpense s description amount category tags notes isPKR now with
    | .ok (s', expense) => (s', some expense.id)
    | .error _ => (s, none)
  | .del expenseId =>
    match deleteExpense s expenseId with
    | .ok s' => (s', none)
    | .error _ => (s, none)

/-- Run a sequence of operations, collecting the ids assigned by the
successful `add`s in order. -/
def runOps : Store → List Op → Store × List Nat
  | s, [] => (s, [])
  | s, op :: ops =>
    ((runOps (stepOp s op).1 ops).1,
     (stepOp s op).2.toList ++ (runOps (stepOp s op).1 ops).2)

/-- The metadata high-water-mark invariant: `metadata.lastId` is at least
every id in the expense list. -/
def idInvariant (s : Store) : Prop :=
  ∀ e ∈ s.expenses, e.id ≤ s.lastId

/-! ## Category registry (commands/category module) -/

/-- `DEFAULT_CATEGORIES` of the category command module. -/
def DEFAULT_CATEGORIES : List (String × Category) :=
  [("food", ⟨"Food and dining expenses", "green"⟩),
   ("transport", ⟨"Transportation expenses", "blue"⟩),
   ("utilities", ⟨"Utility bills and services", "yellow"⟩),
   ("entertainment", ⟨"Entertainment and leisure", "purple"⟩)]

/-- `listCategories()`: when the document has no `categories` field
(`!data.categories` — only a missing/falsy field, not a present-but-empty
`{}`), install `DEFAULT_CATEGORIES` and persist; then print the (possibly
just installed) registry in insertion order.  Returns the persisted store
and the listed registry. -/
def listCategories (s : Store) : Store × List (String × Category) :=
  match s.categories with
  | none =>
    ({ s with categories := some DEFAULT_CATEGORIES }, DEFAULT_CATEGORIES)
  | some cats => (s, cats)

/-- Error classification of `deleteCategory`'s `ValidationError`s:
`Category '...' not found` and `Cannot delete category '...' as it is in use`. -/
inductive DeleteCategoryError where
  | notFound
  | inUse
deriving Repr, DecidableEq

/-- `deleteCategory(name)` (category module lines 318–343):
`!data.categories?.[name]` → not found; any expense with this category →
in use (thrown before `writeData`, registry untouched); otherwise
`delete data.categories[name]` and write. -/
def deleteCategory (s : Store) (name : String) : Except DeleteCategoryError Store :=
  match s.categories with
  | none => .error .notFound
  | some cats =>
    if (cats.lookup name).isNone then .error .notFound
    else if s.expenses.any (fun expense => expense.category == name) then
      .error .inUse
    else
      .ok { s with categories := some (cats.eraseP (fun p => p.1 == name)) }

/-! ## The `update` command (commands/update module) -/

/-- Error classification of the `update` command's failures: the id lookup,
the per-field validations, and the `TypeError` raised when a category is
supplied while the document has no `categories` field at all
(`data.categories[category]` on `undefined`). -/
inductive UpdateError where
  | notFound
  | emptyDescription
  | badAmount
  | categoryNotFound
  | noCategoriesTable
deriving Repr, DecidableEq

/-- The field arguments of `update`: each `Option` is `undefined` (not
supplied) when `none`. -/
structure UpdateArgs where
  description : Option String
  amount : Option ℚ
  category : Option String
  tags : Option String
  notes : Option String
  isPKR : Bool
deriving Repr, DecidableEq

/-- `update`'s description block: reject a blank description, store it trimmed. -/
def updDescription (args : UpdateArgs) (e : Expense) : Except UpdateError Expense :=
  match args.description with
  | none => .ok e
  | some d =>
    if d.trim = "" then .error .emptyDescription
    else .ok { e with description := d.trim }

/-- `update`'s amount block: convert from PKR when requested, reject a
non-positive result. -/
def updAmount (args : UpdateArgs) (e : Expense) : Except UpdateError Expense :=
  match args.amount with
  | none => .ok e
  | some a =>
    let usdAmount := if args.isPKR then convertToUsd a else a
    if usdAmount ≤ 0 then .error .badAmount
    else .ok { e with amount := usdAmount }

/-- `update`'s category block: the sentinel `uncategorized` is exempt from
the registry lookup; looking a name up in an absent `categories` table is
the `TypeError` path. -/
def updCategory (cats : Option (List (String × Category))) (args : UpdateArgs)
    (e : Expense) : Except UpdateError Expense :=
  match args.category with
  | none => .ok e
  | some c =>
    if c = "uncategorized" then .ok { e with category := c }
    else
      match cats with
      | none => .error .noCategoriesTable
      | some m =>
        if (m.lookup c).isNone then .error .categoryNotFound
        else .ok { e with category := c }

/-- `update`'s tags block: a supplied tags option resets the tag list and
re-splits, trims and deduplicates (`options.tags !== undefined`; a falsy
supplied value leaves the list empty). -/
def updTags (args : UpdateArgs) (e : Expense) : Except UpdateError Expense :=
  match args.tags with
  | none => .ok e
  | some t => .ok { e with tags := parseTags (some t) }

/-- `update`'s notes block: `expense.notes = options.notes || ''`. -/
def updNotes (args : UpdateArgs) (e : Expense) : Except UpdateError Expense :=
  match args.notes with
  | none => .ok e
  | some n => .ok { e with notes := n }

/-- All five field blocks of `update`, in source order. -/
def applyUpdate (cats : Option (List (String × Category))) (args : UpdateArgs)
    (e : Expense) : Except UpdateError Expense := do
  let e ← updDescription args e
  let e ← updAmount args e
  let e ← updCategory cats args e
  let e ← updTags args e
  updNotes args e

/-- The `update` command (update module lines 52–119): locate the first
expense with the given id (`findIndex`, `-1` when absent), mutate its
supplied fields in place, and write the whole document back.  Any thrown
error occurs before `writeData`. -/
def updateExpense (s : Store) (expenseId : Nat) (args : UpdateArgs) :
    Except UpdateError Store :=
  let i := s.expenses.findIdx (fun e => e.id == expenseId)
  if h : i < s.expenses.length then
    match applyUpdate s.categories args (s.expenses.get ⟨i, h⟩) with
    | .error err => .error err
    | .ok e2 => .ok { s with expenses := s.expenses.set i e2 }
  else .error .notFound

/-! ## Decimal rendering helpers

Models of the JS built-ins the formatter relies on: decimal rendering of an
integer, `toFixed(2)`, and `toISOString().split('T')[0]` (a `YYYY-MM-DD`
date).  Only the character-level shape matters to the claims. -/

/-- Decimal digits of a natural number, most significant first; the fuel
bounds the number of digits and `n + 1` always suffices. -/
def natCharsAux : Nat → Nat → List Char → List Char
  | 0, _, acc => acc
  | fuel + 1, n, acc =>
    if n < 10 then Nat.digitChar n :: acc
    else natCharsAux fuel (n / 10) (Nat.digitChar (n % 10) :: acc)

/-- Decimal digits of a natural number, most significant first. -/
def natChars (n : Nat) : List Char :=
  natCharsAux (n + 1) n []

/-- Left-pad to two digits (month, day, cents). -/
def pad2 (n : Nat) : List Char :=
  if n < 10 then '0' :: natChars n else natChars n

/-- Left-pad to four digits (year of an ISO date). -/
def pad4 (n : Nat) : List Char :=
  if n < 10 then '0' :: '0' :: '0' :: natChars n
  else if n < 100 then '0' :: '0' :: natChars n
  else if n < 1000 then '0' :: natChars n
  else natChars n

/-- `new Date(isoDate).toISOString().split('T')[0]`: the `YYYY-MM-DD` part. -/
def formatDateChars (d : Date) : List Char :=
  pad4 d.year ++ '-' :: (pad2 d.month ++ '-' :: pad2 d.day)

/-- The date key string used by the daily-totals maps. -/
def formatDate (d : Date) : String :=
  ⟨formatDateChars d⟩

/-- Model of `Number.prototype.toFixed(2)`: the amount rounded to cents,
rendered with a sign, the integer part and exactly two decimals. -/
def toFixed2 (q : ℚ) : List Char :=
  let cents : ℤ := round (q * 100)
  let a := cents.natAbs
  (if cents < 0 then ['-'] else []) ++ natChars (a / 100) ++ '.' :: pad2 (a % 100)

/-! ## Aggregation maps

`obj[key] = (obj[key] || 0) + expense.amount` over a JS object iterated with
`Object.entries` yields an insertion-ordered association list: a new key is
appended, an existing key accumulates in place. -/

/-- One `obj[key] = (obj[key] || 0) + v` step on an insertion-ordered
association list. -/
def upsertAdd (k : String) (v : ℚ) : List (String × ℚ) → List (String × ℚ)
  | [] => [(k, v)]
  | (k', v') :: rest =>
    if k' = k then (k', v' + v) :: rest else (k', v') :: upsertAdd k v rest

/-- `categoryTotals` as built by `summary`, `monthlyReport` and
`calculateStats`: group by `expense.category`, summing amounts. -/
def categoryTotalsList (expenses : List Expense) : List (String × ℚ) :=
  expenses.foldl (fun acc e => upsertAdd e.category e.amount acc) []

/-- `dailyExpenses` as built by `monthlyReport`: group by formatted day,
summing amounts, keys in first-encountered order. -/
def dailyTotals (expenses : List Expense) : List (String × ℚ) :=
  expenses.foldl (fun acc e => upsertAdd (formatDate e.date) e.amount acc) []

/-! ## Peak-day selection (`monthlyReport`) -/

/-- One insertion step of a stable descending sort: the element passes over
every entry with a greater-or-equal value, so among equal values the earlier
entry stays first — the stability JS's `Array.prototype.sort` guarantees. -/
def insertDesc (x : String × ℚ) : List (String × ℚ) → List (String × ℚ)
  | [] => [x]
  | y :: l => if x.2 ≤ y.2 then y :: insertDesc x l else x :: y :: l

/-- `Object.entries(dailyExpenses).sort(([, a], [, b]) => b - a)`: a stable
sort by value, descending. -/
def sortDescStable (l : List (String × ℚ)) : List (String × ℚ) :=
  l.foldl (fun acc x => insertDesc x acc) []

/-- `monthlyReport`'s peak spending day: the first entry of the stably
descending-sorted daily totals (`...sort(...)[0]`). -/
def peakDay (monthlyExpenses : List Expense) : Option (String × ℚ) :=
  (sortDescStable (dailyTotals monthlyExpenses)).head?

/-! ## Month comparison (`compareMonths`) -/

/-- A JS `number` as far as the comparison report needs it: finite, one of
the two infinities, or `NaN`. -/
inductive JsNum where
  | fin (q : ℚ)
  | inf
  | negInf
  | nan
deriving Repr, DecidableEq

/-- JS division: a zero divisor yields `±Infinity` (or `NaN` for `0/0`)
instead of an error. -/
def jsDiv (a b : ℚ) : JsNum :=
  if b = 0 then
    if 0 < a then .inf else if a < 0 then .negInf else .nan
  else .fin (a / b)

/-- Multiplication by the literal `100`, extended to the non-finite values. -/
def jsMul100 : JsNum → JsNum
  | .fin q => .fin (q * 100)
  | .inf => .inf
  | .negInf => .negInf
  | .nan => .nan

/-- `calculateStats` of `compareMonths`: total and per-category totals. -/
structure MonthStats where
  total : ℚ
  categoryTotals : List (String × ℚ)
deriving Repr, DecidableEq

/-- `calculateStats(expenses)` (compareMonths, report module lines 523–530). -/
def calculateStats (expenses : List Expense) : MonthStats :=
  { total := totalAmount expenses,
    categoryTotals := categoryTotalsList expenses }

/-- The percentage change printed by `compareMonths` (report module lines
542–544): `((stats2.total - stats1.total) / stats1.total) * 100`, computed
unconditionally with JS division semantics. -/
def compareMonthsPercentChange (s : Store) (month1 month2 currentYear : Nat) :
    JsNum :=
  let stats1 := calculateStats (monthYearFilter month1 currentYear s.expenses)
  let stats2 := calculateStats (monthYearFilter month2 currentYear s.expenses)
  jsMul100 (jsDiv (stats2.total - stats1.total) stats1.total)

/-! ## CSV export (commands/export.js) -/

/-- The header fields of `convertToCSV`. -/
def csvHeaderFields : List (List Char) :=
  ["ID".data, "Date".data, "Description".data, "Amount (USD)".data,
   "Amount (PKR)".data, "Category".data, "Tags".data, "Notes".data]

/-- One data row of `convertToCSV` (export.js lines 44–53): id, formatted
date, raw description, both amounts via `toFixed(2)`, raw category, tags
joined with `;`, and notes with every comma replaced by a semicolon. -/
def csvRowFields (e : Expense) : List (List Char) :=
  [natChars e.id,
   formatDateChars e.date,
   e.description.data,
   toFixed2 e.amount,
   toFixed2 (convertToPkr e.amount),
   e.category.data,
   [';'].intercalate (e.tags.map String.data),
   e.notes.data.map (fun c => if c = ',' then ';' else c)]

/-- `convertToCSV` (export.js lines 42–59): each field list joined with `,`,
the header line and the rows joined with `\n`. -/
def convertToCSV (expenses : List Expense) : List Char :=
  ['\n'].intercalate
    ([','].intercalate csvHeaderFields ::
      expenses.map fun e => [','].intercalate (csvRowFields e))

/-- The fields `convertToCSV` emits without sanitization must be free of the
separator characters for the column alignment to survive: the description
and the category are emitted raw, each tag is emitted raw up to the `;`
joins, and only the commas of the notes are replaced.  No field may contain
a newline. -/
def csvSafe (e : Expense) : Prop :=
  ',' ∉ e.description.data ∧ '\n' ∉ e.description.data ∧
  ',' ∉ e.category.data ∧ '\n' ∉ e.category.data ∧
  (∀ t ∈ e.tags, ',' ∉ t.data ∧ '\n' ∉ t.data) ∧
  '\n' ∉ e.notes.data

/-- Outcome of `exportExpenses`: the month-validation error, the
`No expenses to export` early return (no file written), or the written CSV. -/
inductive ExportResult where
  | invalidMonth
  | nothingToExport
  | csv (content : List Char)
deriving Repr, DecidableEq

/-- `exportExpenses(month)` (export.js lines 76–104): validate the optional
month, filter by month only, report `No expenses to export` on an empty
result, otherwise produce the CSV document. -/
def exportExpenses (s : Store) (month : Option Nat) : ExportResult :=
  match month with
  | some m =>
    if m < 1 ∨ 12 < m then .invalidMonth
    else
      let expenses := exportMonthFilter m s.expenses
      if expenses.isEmpty then .nothingToExport
      else .csv (convertToCSV expenses)
  | none =>
    if s.expenses.isEmpty then .nothingToExport
    else .csv (convertToCSV s.expenses)

/-! ## Concrete sample data used by witnesses and counterexamples -/

/-- A concrete store: a 100-unit budget for March 2025, no other budgets,
and two March-2025 expenses totalling 40.5 units. -/
def marchStore : Store :=
  { expenses :=
      [{ id := 1, description := "Lunch", amount := 31/2, category := "food",
         date := ⟨2025, 3, 15⟩, tags := [], notes := "" },
       { id := 2, description := "Taxi", amount := 25, category := "transport",
         date := ⟨2025, 3, 20⟩, tags := [], notes := "" }],
    categories :=
      some [("food", ⟨"Food and dining expenses", "green"⟩),
            ("transport", ⟨"Transportation expenses", "blue"⟩)],
    budgets := [(2025, [(3, 100)])],
    lastId := 2 }

/-- A store holding only a seeded `food` category: the starting point of the
operation trace below. -/
def seedStore : Store :=
  { expenses := [],
    categories := some [("food", ⟨"Food and dining expenses", "green"⟩)],
    budgets := [], lastId := 0 }

/-- A demonstration trace: two successful adds with a deletion in between. -/
def demoOps : List Op :=
  [.add "Lunch" (31/2) "food" none none false ⟨2025, 3, 15⟩,
   .del 1,
   .add "Dinner" 25 "food" none none false ⟨2025, 3, 16⟩]

/-! ## General helper lemmas -/

/-- `reduce((sum, e) => sum + e.amount, init)` accumulates the sum of the
amounts on top of the initial value. -/
theorem foldl_add_amount (expenses : List Expense) :
    ∀ init : ℚ,
      expenses.foldl (fun sum expense => sum + expense.amount) init =
        init + (expenses.map Expense.amount).sum := by
  induction expenses with
  | nil => intro init; simp
  | cons e es ih => intro init; simp [ih, add_assoc]

/-- `totalAmount` is the sum of the amounts. -/
theorem totalAmount_eq_sum (expenses : List Expense) :
    totalAmount expenses = (expenses.map Expense.amount).sum := by
  simp [totalAmount, foldl_add_amount]

/-- Looking a key up past a head entry with a different key. -/
theorem lookup_cons_ne {β : Type} {k k' : String} (v : β) (l : List (String × β))
    (h : k ≠ k') : ((k', v) :: l).lookup k = l.lookup k := by
  rw [List.lookup_cons, beq_false_of_ne h]

/-- A key that is not among the keys of an association list looks up to
`none`. -/
theorem lookup_eq_none_of_not_mem_keys {β : Type} (k : String)
    (l : List (String × β)) (h : k ∉ l.map Prod.fst) : l.lookup k = none := by
  rw [List.lookup_eq_none_iff]
  intro p hp
  simp only [List.mem_map, not_exists, not_and] at h
  have := h p hp
  simp only [bne_iff_ne]
  exact fun hk => this (hk ▸ rfl)

/-- Deleting a key from an association list with pairwise-distinct keys
makes the key absent. -/
theorem lookup_eraseP_self {β : Type} (k : String) (l : List (String × β))
    (hnd : (l.map Prod.fst).Nodup) :
    (l.eraseP fun p => p.1 == k).lookup k = none := by
  induction l with
  | nil => rfl
  | cons p rest ih =>
    simp only [List.map_cons, List.nodup_cons] at hnd
    by_cases h : p.1 = k
    · rw [List.eraseP_cons, show (p.1 == k) = true by simp [h], cond_true]
      exact lookup_eq_none_of_not_mem_keys k rest (h ▸ hnd.1)
    · rw [List.eraseP_cons, show (p.1 == k) = false by simp [h], cond_false]
      cases p with
      | mk k' v =>
        rw [lookup_cons_ne v _ fun hk => h (by simp [hk.symm])]
        exact ih hnd.2

/-- Deleting one key from an association list leaves every other key's
binding unchanged. -/
theorem lookup_eraseP_ne {β : Type} (k name : String) (l : List (String × β))
    (hk : k ≠ name) :
    (l.eraseP fun p => p.1 == name).lookup k = l.lookup k := by
  induction l with
  | nil => rfl
  | cons p rest ih =>
    by_cases h : p.1 = name
    · rw [List.eraseP_cons, show (p.1 == name) = true by simp [h], cond_true]
      cases p with
      | mk k' v =>
        rw [lookup_cons_ne v _ (by simp only at h; rw [h]; exact hk)]
    · rw [List.eraseP_cons, show (p.1 == name) = false by simp [h], cond_false]
      cases p with
      | mk k' v =>
        by_cases hkp : k = k'
        · subst hkp
          simp [List.lookup_cons_self]
        · rw [lookup_cons_ne v _ hkp, lookup_cons_ne v _ hkp]
          exact ih

/-! ## Claim C1: the summary/export month filters and the current year -/

/-- C1 counterexample: the monthly-filter-based read operations do **not**
restrict to the current system-clock year.  Two expenses of month 5 from the
distinct years 2023 and 2024 are both selected by the summary filter and by
the export filter; since they cannot both be of the current year, an expense
from a different year whose month equals the queried month is included,
contradicting the claim's "excluded". -/
theorem summary_export_filter_includes_other_years :
    let e2023 : Expense :=
      { id := 1, description := "Lunch", amount := 10, category := "food",
        date := ⟨2023, 5, 1⟩, tags := [], notes := "" }
    let e2024 : Expense :=
      { id := 2, description := "Dinner", amount := 20, category := "food",
        date := ⟨2024, 5, 2⟩, tags := [], notes := "" }
    summaryMonthFilter 5 [e2023, e2024] = [e2023, e2024] ∧
    exportMonthFilter 5 [e2023, e2024] = [e2023, e2024] ∧
    e2023.date.year ≠ e2024.date.year := by
  refine ⟨rfl, rfl, by decide⟩

/-- C1 amended: the monthly summary filter and the CSV export's month filter
select an expense if and only if its parsed date's month equals the queried
month — the parsed date's year is not consulted at all (unlike the
month-and-year filter used by the report and budget-status paths). -/
theorem summary_export_filter_month_only (m : Nat) (expenses : List Expense)
    (e : Expense) :
    (e ∈ summaryMonthFilter m expenses ↔ e ∈ expenses ∧ e.date.month = m) ∧
    (e ∈ exportMonthFilter m expenses ↔ e ∈ expenses ∧ e.date.month = m) := by
  constructor <;>
    simp [summaryMonthFilter, exportMonthFilter, List.mem_filter]

/-- C1 amended, applied: a January 2023 expense is selected by both filters
for month 1. -/
theorem summary_export_filter_month_only_witness :
    let e : Expense :=
      { id := 3, description := "Tea", amount := 2, category := "food",
        date := ⟨2023, 1, 9⟩, tags := [], notes := "" }
    (e ∈ summaryMonthFilter 1 [e] ↔ e ∈ [e] ∧ e.date.month = 1) ∧
    (e ∈ exportMonthFilter 1 [e] ↔ e ∈ [e] ∧ e.date.month = 1) :=
  summary_export_filter_month_only 1 _ _

/-! ## Claim C3: `compareMonths` divides by a zero first-month total -/

/-- C3 (code bug): with no expenses in month 3 of the current year and a
single 50-unit expense in month 4, `compareMonths(3, 4)` computes
`((50 - 0) / 0) * 100`, which under JS division is `Infinity` — the printed
percentage change is the string `Infinity`, not an undefined/not-computed
report as the specification requires. -/
theorem compareMonths_zero_total_gives_infinity :
    compareMonthsPercentChange
      { expenses :=
          [{ id := 1, description := "Groceries", amount := 50,
             category := "food", date := ⟨2025, 4, 10⟩, tags := [],
             notes := "" }],
        categories := some [("food", ⟨"Food and dining expenses", "green"⟩)],
        budgets := [], lastId := 1 }
      3 4 2025 = .inf := by
  simp only [compareMonthsPercentChange, calculateStats, monthYearFilter,
    totalAmount, List.filter, jsDiv, jsMul100]
  norm_num [show ((4 : Nat) == 3) = false from rfl]

/-! ## Claim C7: seeding of the default categories -/

/-- C7 counterexample: a store whose persisted document has a *present but
empty* category registry (`categories: {}`, as written by `initialize()`).
`listCategories` installs nothing — the seeding test `!data.categories` is
false for an empty object — and returns the empty registry unchanged,
contradicting "installs the default set ... and returns a non-empty
registry". -/
theorem listCategories_empty_registry_not_seeded :
    listCategories { expenses := [], categories := some [], budgets := [],
                     lastId := 0 } =
      ({ expenses := [], categories := some [], budgets := [], lastId := 0 },
       []) := by
  rfl

/-- C7 amended: `listCategories` installs and persists the default seed
categories exactly when the persisted document has no `categories` field at
all (the field is falsy); when the field is present — even as an empty
registry — the registry is returned unchanged, in insertion order, with no
write. -/
theorem listCategories_seeds_only_missing_field (s : Store) :
    (s.categories = none →
      listCategories s =
        ({ s with categories := some DEFAULT_CATEGORIES }, DEFAULT_CATEGORIES) ∧
      DEFAULT_CATEGORIES ≠ []) ∧
    (∀ cats, s.categories = some cats → listCategories s = (s, cats)) := by
  constructor
  · intro h
    refine ⟨?_, by decide⟩
    simp [listCategories, h]
  · intro cats h
    simp [listCategories, h]

/-- C7 amended, applied: on a store with no `categories` field the defaults
are installed; on a store with a singleton registry nothing changes. -/
theorem listCategories_seeds_only_missing_field_witness :
    (listCategories { expenses := [], categories := none, budgets := [],
                      lastId := 0 } =
      ({ expenses := [], categories := some DEFAULT_CATEGORIES, budgets := [],
         lastId := 0 }, DEFAULT_CATEGORIES) ∧
      DEFAULT_CATEGORIES ≠ []) ∧
    listCategories { expenses := [],
                     categories := some [("food", ⟨"Food", "green"⟩)],
                     budgets := [], lastId := 0 } =
      ({ expenses := [], categories := some [("food", ⟨"Food", "green"⟩)],
         budgets := [], lastId := 0 },
       [("food", ⟨"Food", "green"⟩)]) :=
  ⟨(listCategories_seeds_only_missing_field _).1 rfl,
   (listCategories_seeds_only_missing_field _).2 _ rfl⟩

/-! ## Claim C4: budget status -/

/-- C4: for a nonzero budget `B` for `(currentYear, m)`, `checkBudgetStatus`
reports spent `S` = the sum of the amounts of the expenses dated in
`(currentYear, m)`, remaining `B - S` and used percentage `S / B * 100`;
for a zero or unset budget it returns the `No budget set` result, which
carries no computed percentage (the division is short-circuited). -/
theorem checkBudgetStatus_correct (s : Store) (m currentYear currentMonth : Nat) :
    (budgetFor s currentYear m ≠ 0 →
      ∃ exceeded nearLimit,
        checkBudgetStatus s (some m) currentYear currentMonth =
          .report (budgetFor s currentYear m)
            ((monthYearFilter m currentYear s.expenses).map Expense.amount).sum
            (budgetFor s currentYear m -
              ((monthYearFilter m currentYear s.expenses).map Expense.amount).sum)
            (((monthYearFilter m currentYear s.expenses).map Expense.amount).sum /
              budgetFor s currentYear m * 100)
            exceeded nearLimit) ∧
    (budgetFor s currentYear m = 0 →
      checkBudgetStatus s (some m) currentYear currentMonth = .noBudget m) := by
  constructor
  · intro h
    simp only [checkBudgetStatus, totalAmount_eq_sum, Option.getD_some, if_neg h]
    exact ⟨_, _, rfl⟩
  · intro h
    simp [checkBudgetStatus, h]

/-- C4 applied: on `marchStore` (budget 100 for March 2025, 40.5 spent),
`checkBudgetStatus(3)` reports remaining `59.5` and `40.5%` used; for month
5, which has no budget, it reports `No budget set`. -/
theorem checkBudgetStatus_correct_witness :
    budgetFor marchStore 2025 3 ≠ 0 ∧
    (∃ exceeded nearLimit,
      checkBudgetStatus marchStore (some 3) 2025 7 =
        .report (budgetFor marchStore 2025 3)
          ((monthYearFilter 3 2025 marchStore.expenses).map Expense.amount).sum
          (budgetFor marchStore 2025 3 -
            ((monthYearFilter 3 2025 marchStore.expenses).map Expense.amount).sum)
          (((monthYearFilter 3 2025 marchStore.expenses).map Expense.amount).sum /
            budgetFor marchStore 2025 3 * 100)
          exceeded nearLimit) ∧
    budgetFor marchStore 2025 5 = 0 ∧
    checkBudgetStatus marchStore (some 5) 2025 7 = .noBudget 5 := by
  have h3 : budgetFor marchStore 2025 3 ≠ 0 := by
    norm_num [budgetFor, marchStore, List.lookup]
  have h5 : budgetFor marchStore 2025 5 = 0 := by
    norm_num [budgetFor, marchStore, List.lookup,
      show ((5 : Nat) == 3) = false from rfl]
  exact ⟨h3, (checkBudgetStatus_correct marchStore 3 2025 7).1 h3, h5,
    (checkBudgetStatus_correct marchStore 5 2025 7).2 h5⟩

/-! ## Claim C5: category deletion safety -/

/-- C5: `deleteCategory(name)` fails with the not-found error when `name` is
absent from the registry (including when the document has no `categories`
field); fails with the category-in-use error — before any write, so the
registry is untouched — whenever some stored expense references `name`; and
otherwise succeeds, removing exactly the entry for `name`: the key becomes
absent, every other key's binding is unchanged, the registry shrinks by one
entry, and the expenses, budgets and metadata of the store are untouched. -/
theorem deleteCategory_correct (s : Store) (name : String) :
    (s.categories = none → deleteCategory s name = .error .notFound) ∧
    (∀ cats, s.categories = some cats →
      (cats.lookup name = none → deleteCategory s name = .error .notFound) ∧
      ((cats.lookup name).isSome →
        (∃ e ∈ s.expenses, e.category = name) →
        deleteCategory s name = .error .inUse) ∧
      ((cats.map Prod.fst).Nodup → (cats.lookup name).isSome →
        (∀ e ∈ s.expenses, e.category ≠ name) →
        deleteCategory s name =
          .ok { s with categories := some (cats.eraseP fun p => p.1 == name) } ∧
        (cats.eraseP fun p => p.1 == name).lookup name = none ∧
        (∀ k, k ≠ name →
          (cats.eraseP fun p => p.1 == name).lookup k = cats.lookup k) ∧
        (cats.eraseP fun p => p.1 == name).length + 1 = cats.length)) := by
  refine ⟨fun h => by simp [deleteCategory, h], fun cats hc => ⟨?_, ?_, ?_⟩⟩
  · intro hl
    simp [deleteCategory, hc, hl]
  · intro hl ⟨e, he, hcat⟩
    have hany : s.expenses.any (fun expense => expense.category == name) = true :=
      List.any_eq_true.2 ⟨e, he, by simp [hcat]⟩
    simp [deleteCategory, hc, Option.isNone_iff_eq_none,
      Option.ne_none_iff_isSome.2 hl, hany]
  · intro hnd hl hno
    have hany : s.expenses.any (fun expense => expense.category == name) = false := by
      rw [List.any_eq_false]
      intro e he
      simp [hno e he]
    have hsome : ∃ b, cats.lookup name = some b := by
      cases hcase : cats.lookup name with
      | none => rw [hcase] at hl; simp at hl
      | some b => exact ⟨b, rfl⟩
    obtain ⟨b, hb⟩ := hsome
    refine ⟨by simp [deleteCategory, hc, hb, hany], lookup_eraseP_self name cats hnd,
      fun k hk => lookup_eraseP_ne k name cats hk, ?_⟩
    obtain ⟨l₁, l₂, rfl, -⟩ := List.lookup_eq_some_iff.1 hb
    exact List.length_eraseP_add_one (l := l₁ ++ (name, b) :: l₂)
      (a := (name, b)) (by simp) (by simp)

/-- C5 applied, on `marchStore` extended with an unused `misc` category:
deleting a missing name fails not-found, deleting `food` (still referenced
by the Lunch expense) fails in-use, and deleting `misc` succeeds, removing
exactly that entry. -/
theorem deleteCategory_correct_witness :
    let cats : List (String × Category) :=
      [("food", ⟨"Food and dining expenses", "green"⟩),
       ("transport", ⟨"Transportation expenses", "blue"⟩),
       ("misc", ⟨"Everything else", "default"⟩)]
    let s : Store := { marchStore with categories := some cats }
    deleteCategory s "gifts" = .error .notFound ∧
    deleteCategory s "food" = .error .inUse ∧
    (deleteCategory s "misc" =
      .ok { s with categories := some (cats.eraseP fun p => p.1 == "misc") } ∧
      (cats.eraseP fun p => p.1 == "misc").lookup "misc" = none ∧
      (∀ k, k ≠ "misc" →
        (cats.eraseP fun p => p.1 == "misc").lookup k = cats.lookup k) ∧
      (cats.eraseP fun p => p.1 == "misc").length + 1 = cats.length) := by
  intro cats s
  refine ⟨?_, ?_, ?_⟩
  · exact ((deleteCategory_correct s "gifts").2 cats rfl).1 (by decide)
  · exact ((deleteCategory_correct s "food").2 cats rfl).2.1 (by decide)
      ⟨marchStore.expenses.head (by simp [marchStore]), by simp [s, marchStore], rfl⟩
  · exact ((deleteCategory_correct s "misc").2 cats rfl).2.2 (by decide) (by decide)
      (by decide)

/-! ## Claim C6: category validation on add -/

/-- C6 counterexample: the sentinel category is **not** always accepted.  On
a store whose persisted document has no `categories` field at all (as
`ensureFileExists` creates it), `add` throws `No categories defined` before
the sentinel exemption is even consulted, so an add with category
`uncategorized` fails. -/
theorem addExpense_sentinel_rejected_without_table :
    addExpense { expenses := [], categories := none, budgets := [], lastId := 0 }
      "Lunch" (31/2) "uncategorized" none none false ⟨2025, 3, 15⟩ =
      .error .noCategories := by
  rfl

/-- C6 amended: when the persisted document has a `categories` table, an
`add` whose category is neither the sentinel `uncategorized` nor a key of
the table fails with the category-does-not-exist `ValidationError` and the
persisted store is unchanged (no expense appended, `metadata.lastId`
unchanged); the sentinel is exempt from the registry lookup whenever the
table is present, so such an add can only fail expense validation.  When
the document has no `categories` table at all, every `add` — the sentinel
included — fails with the `No categories defined` `ValidationError`,
leaving the store unchanged. -/
theorem addExpense_category_validation (s : Store) (description : String)
    (amount : ℚ) (category : String) (tags notes : Option String)
    (isPKR : Bool) (now : Date) :
    (∀ cats, s.categories = some cats → category ≠ "uncategorized" →
      cats.lookup category = none →
      addExpense s description amount category tags notes isPKR now =
        .error .categoryNotFound ∧
      addPersisted s description amount category tags notes isPKR now = s) ∧
    (∀ cats, s.categories = some cats → category = "uncategorized" →
      ∀ err, addExpense s description amount category tags notes isPKR now =
        .error err → err = .invalidExpense) ∧
    (s.categories = none →
      addExpense s description amount category tags notes isPKR now =
        .error .noCategories ∧
      addPersisted s description amount category tags notes isPKR now = s) := by
  refine ⟨?_, ?_, ?_⟩
  · intro cats hc hsent hl
    have h : addExpense s description amount category tags notes isPKR now =
        .error .categoryNotFound := by
      simp [addExpense, hc, hsent, hl, Option.isNone_iff_eq_none]
    exact ⟨h, by simp [addPersisted, h]⟩
  · intro cats hcase hsent err herr
    simp only [addExpense, hcase] at herr
    rw [if_neg (by simp [hsent])] at herr
    by_cases hv : validExpense description.trim
        (if isPKR then convertToUsd amount else amount) = true
    · rw [if_neg (by simp [hv])] at herr
      cases herr
    · rw [if_pos (by simpa using hv)] at herr
      injection herr with h
      exact h.symm
  · intro hc
    have h : addExpense s description amount category tags notes isPKR now =
        .error .noCategories := by
      simp [addExpense, hc]
    exact ⟨h, by simp [addPersisted, h]⟩

/-- C6 amended, applied: on `marchStore` an add with the unregistered
category `gifts` fails with the category error and leaves the store
unchanged. -/
theorem addExpense_category_validation_witness :
    marchStore.categories =
      some [("food", ⟨"Food and dining expenses", "green"⟩),
            ("transport", ⟨"Transportation expenses", "blue"⟩)] ∧
    (addExpense marchStore "Present" 20 "gifts" none none false ⟨2025, 3, 22⟩ =
      .error .categoryNotFound ∧
     addPersisted marchStore "Present" 20 "gifts" none none false ⟨2025, 3, 22⟩ =
      marchStore) :=
  ⟨rfl,
   (addExpense_category_validation marchStore "Present" 20 "gifts" none none
      false ⟨2025, 3, 22⟩).1 _ rfl (by decide) (by decide)⟩

/-! ## Claim C2: id monotonicity -/

/-- A successful `add` assigns `metadata.lastId + 1` as the new id, stores it
back as the new `metadata.lastId`, and appends the expense. -/
theorem addExpense_ok_spec {s : Store} {description : String} {amount : ℚ}
    {category : String} {tags notes : Option String} {isPKR : Bool} {now : Date}
    {s' : Store} {e : Expense}
    (h : addExpense s description amount category tags notes isPKR now =
      .ok (s', e)) :
    e.id = s.lastId + 1 ∧ s'.lastId = s.lastId + 1 ∧
    s'.expenses = s.expenses ++ [e] := by
  rcases hc : s.categories with - | cats
  · simp only [addExpense, hc] at h
    cases h
  · simp only [addExpense, hc] at h
    by_cases hcat :
        category ≠ "uncategorized" ∧ (cats.lookup category).isNone = true
    · rw [if_pos hcat] at h
      cases h
    · rw [if_neg hcat] at h
      by_cases hv : validExpense description.trim
          (if isPKR then convertToUsd amount else amount) = true
      · rw [if_neg (by simpa using hv)] at h
        rw [Except.ok.injEq, Prod.mk.injEq] at h
        obtain ⟨hs, he⟩ := h
        subst hs he
        exact ⟨rfl, rfl, rfl⟩
      · rw [if_pos (by simpa using hv)] at h
        cases h

/-- A successful `delete` erases the first matching expense and leaves
`metadata.lastId` unchanged. -/
theorem deleteExpense_ok_spec {s : Store} {expenseId : Nat} {s' : Store}
    (h : deleteExpense s expenseId = .ok s') :
    s'.expenses = s.expenses.eraseP (fun e => e.id == expenseId) ∧
    s'.lastId = s.lastId := by
  simp only [deleteExpense] at h
  split at h
  · rw [Except.ok.injEq] at h
    subst h
    exact ⟨rfl, rfl⟩
  · cases h

/-- One trace step preserves the high-water-mark invariant, never decreases
`metadata.lastId`, and any id it assigns is `lastId + 1` at the time of the
call, becoming the new `lastId`. -/
theorem stepOp_spec (s : Store) (op : Op) (hinv : idInvariant s) :
    idInvariant (stepOp s op).1 ∧ s.lastId ≤ (stepOp s op).1.lastId ∧
    (∀ i, (stepOp s op).2 = some i →
      i = s.lastId + 1 ∧ (stepOp s op).1.lastId = i) := by
  cases op with
  | add description amount category tags notes isPKR now =>
    rcases hadd : addExpense s description amount category tags notes isPKR now
      with err | ⟨s', e⟩ <;> simp only [stepOp, hadd]
    · exact ⟨hinv, le_refl _, by simp⟩
    · obtain ⟨hid, hlast, hexp⟩ := addExpense_ok_spec hadd
      refine ⟨?_, by omega, ?_⟩
      · intro x hx
        rw [hexp] at hx
        rw [hlast]
        rcases List.mem_append.1 hx with hx | hx
        · exact le_trans (hinv x hx) (by omega)
        · simp only [List.mem_singleton] at hx
          subst hx
          omega
      · intro i hi
        simp only [Option.some.injEq] at hi
        subst hi
        exact ⟨hid, by omega⟩
  | del expenseId =>
    rcases hdel : deleteExpense s expenseId
      with err | s' <;> simp only [stepOp, hdel]
    · exact ⟨hinv, le_refl _, by simp⟩
    · obtain ⟨hexp, hlast⟩ := deleteExpense_ok_spec hdel
      refine ⟨?_, by omega, by simp⟩
      intro x hx
      rw [hexp] at hx
      rw [hlast]
      exact hinv x (List.eraseP_subset _ hx)

/-- Along any trace from an invariant-respecting store, the invariant is
preserved, `metadata.lastId` never decreases, every assigned id lies
strictly above the starting `lastId` and at most the final one, and the
assigned ids are strictly increasing. -/
theorem runOps_spec (ops : List Op) : ∀ s : Store, idInvariant s →
    idInvariant (runOps s ops).1 ∧
    s.lastId ≤ (runOps s ops).1.lastId ∧
    (∀ i ∈ (runOps s ops).2, s.lastId < i ∧ i ≤ (runOps s ops).1.lastId) ∧
    List.Chain' (· < ·) (runOps s ops).2 := by
  induction ops with
  | nil =>
    intro s h
    exact ⟨h, le_refl _, by simp [runOps], by simp [runOps]⟩
  | cons op ops ih =>
    intro s h
    obtain ⟨h1, h2, h3⟩ := stepOp_spec s op h
    obtain ⟨ih1, ih2, ih3, ih4⟩ := ih (stepOp s op).1 h1
    simp only [runOps]
    refine ⟨ih1, by omega, ?_, ?_⟩
    · intro i hi
      rcases List.mem_append.1 hi with hi | hi
      · rcases hassigned : (stepOp s op).2 with - | a <;>
          rw [hassigned] at hi
        · simp at hi
        · simp only [Option.toList_some, List.mem_singleton] at hi
          subst hi
          obtain ⟨ha, hb⟩ := h3 i hassigned
          exact ⟨by omega, by omega⟩
      · obtain ⟨ha, hb⟩ := ih3 i hi
        exact ⟨by omega, hb⟩
    · rcases hassigned : (stepOp s op).2 with - | a
      · simpa using ih4
      · obtain ⟨ha, hb⟩ := h3 a hassigned
        simp only [Option.toList_some, List.singleton_append]
        rw [List.chain'_cons']
        refine ⟨?_, ih4⟩
        intro y hy
        have hmem : y ∈ (runOps (stepOp s op).1 ops).2 :=
          List.mem_of_mem_head? hy
        obtain ⟨hy1, -⟩ := ih3 y hmem
        omega

/-- C2: each successfully assigned id equals `metadata.lastId + 1` at the
time of the call and becomes the new `lastId`; along any sequence of adds
and deletes from a store satisfying the high-water-mark invariant, the
assigned ids are strictly increasing, `lastId` never decreases, every
assigned id stays bounded by the final `lastId`, and the invariant
(`lastId` at least every stored id) is preserved throughout. -/
theorem addExpense_id_monotonic (s : Store) (ops : List Op)
    (hinv : idInvariant s) :
    (∀ (t : Store) (description : String) (amount : ℚ) (category : String)
       (tags notes : Option String) (isPKR : Bool) (now : Date)
       (t' : Store) (e : Expense),
       addExpense t description amount category tags notes isPKR now =
         .ok (t', e) →
       e.id = t.lastId + 1 ∧ t'.lastId = e.id) ∧
    List.Chain' (· < ·) (runOps s ops).2 ∧
    (∀ i ∈ (runOps s ops).2, s.lastId < i ∧ i ≤ (runOps s ops).1.lastId) ∧
    s.lastId ≤ (runOps s ops).1.lastId ∧
    idInvariant (runOps s ops).1 := by
  obtain ⟨h1, h2, h3, h4⟩ := runOps_spec ops s hinv
  refine ⟨?_, h4, h3, h2, h1⟩
  intro t description amount category tags notes isPKR now t' e h
  obtain ⟨hid, hlast, -⟩ := addExpense_ok_spec h
  exact ⟨hid, by omega⟩

/-- C2 applied: the empty seeded store satisfies the invariant, and running
add–delete–add from it yields strictly increasing ids bounded by the final
`lastId`. -/
theorem addExpense_id_monotonic_witness :
    idInvariant seedStore ∧
    ((∀ (t : Store) (description : String) (amount : ℚ) (category : String)
        (tags notes : Option String) (isPKR : Bool) (now : Date)
        (t' : Store) (e : Expense),
        addExpense t description amount category tags notes isPKR now =
          .ok (t', e) →
        e.id = t.lastId + 1 ∧ t'.lastId = e.id) ∧
     List.Chain' (· < ·) (runOps seedStore demoOps).2 ∧
     (∀ i ∈ (runOps seedStore demoOps).2,
        seedStore.lastId < i ∧ i ≤ (runOps seedStore demoOps).1.lastId) ∧
     seedStore.lastId ≤ (runOps seedStore demoOps).1.lastId ∧
     idInvariant (runOps seedStore demoOps).1) :=
  ⟨fun e he => by simp [seedStore] at he,
   addExpense_id_monotonic seedStore demoOps
     (fun e he => by simp [seedStore] at he)⟩

/-! ## Claim C10: the frame of a successful update -/

/-- The description block touches only the description, and only when one is
supplied. -/
theorem updDescription_spec {args : UpdateArgs} {e e2 : Expense}
    (h : updDescription args e = .ok e2) :
    e2.id = e.id ∧ e2.amount = e.amount ∧ e2.category = e.category ∧
    e2.date = e.date ∧ e2.tags = e.tags ∧ e2.notes = e.notes ∧
    (args.description = none → e2.description = e.description) := by
  cases hd : args.description with
  | none =>
    simp only [updDescription, hd, Except.ok.injEq] at h
    subst h
    exact ⟨rfl, rfl, rfl, rfl, rfl, rfl, fun _ => rfl⟩
  | some d =>
    simp only [updDescription, hd] at h
    split at h
    · cases h
    · rw [Except.ok.injEq] at h
      subst h
      exact ⟨rfl, rfl, rfl, rfl, rfl, rfl, by simp [hd]⟩

/-- The amount block touches only the amount, and only when one is
supplied. -/
theorem updAmount_spec {args : UpdateArgs} {e e2 : Expense}
    (h : updAmount args e = .ok e2) :
    e2.id = e.id ∧ e2.description = e.description ∧ e2.category = e.category ∧
    e2.date = e.date ∧ e2.tags = e.tags ∧ e2.notes = e.notes ∧
    (args.amount = none → e2.amount = e.amount) := by
  cases ha : args.amount with
  | none =>
    simp only [updAmount, ha, Except.ok.injEq] at h
    subst h
    exact ⟨rfl, rfl, rfl, rfl, rfl, rfl, fun _ => rfl⟩
  | some a =>
    simp only [updAmount, ha] at h
    by_cases hle : (if args.isPKR then convertToUsd a else a) ≤ 0
    · rw [if_pos hle] at h
      cases h
    · rw [if_neg hle] at h
      rw [Except.ok.injEq] at h
      subst h
      exact ⟨rfl, rfl, rfl, rfl, rfl, rfl, by simp [ha]⟩

/-- The category block touches only the category, and only when one is
supplied. -/
theorem updCategory_spec {cats : Option (List (String × Category))}
    {args : UpdateArgs} {e e2 : Expense}
    (h : updCategory cats args e = .ok e2) :
    e2.id = e.id ∧ e2.description = e.description ∧ e2.amount = e.amount ∧
    e2.date = e.date ∧ e2.tags = e.tags ∧ e2.notes = e.notes ∧
    (args.category = none → e2.category = e.category) := by
  cases hc : args.category with
  | none =>
    simp only [updCategory, hc, Except.ok.injEq] at h
    subst h
    exact ⟨rfl, rfl, rfl, rfl, rfl, rfl, fun _ => rfl⟩
  | some c =>
    simp only [updCategory, hc] at h
    split at h
    · rw [Except.ok.injEq] at h
      subst h
      exact ⟨rfl, rfl, rfl, rfl, rfl, rfl, by simp [hc]⟩
    · cases cats with
      | none => cases h
      | some m =>
        simp only at h
        split at h
        · cases h
        · rw [Except.ok.injEq] at h
          subst h
          exact ⟨rfl, rfl, rfl, rfl, rfl, rfl, by simp [hc]⟩

/-- The tags block touches only the tags, and only when they are supplied. -/
theorem updTags_spec {args : UpdateArgs} {e e2 : Expense}
    (h : updTags args e = .ok e2) :
    e2.id = e.id ∧ e2.description = e.description ∧ e2.amount = e.amount ∧
    e2.category = e.category ∧ e2.date = e.date ∧ e2.notes = e.notes ∧
    (args.tags = none → e2.tags = e.tags) := by
  cases ht : args.tags with
  | none =>
    simp only [updTags, ht, Except.ok.injEq] at h
    subst h
    exact ⟨rfl, rfl, rfl, rfl, rfl, rfl, fun _ => rfl⟩
  | some t =>
    simp only [updTags, ht, Except.ok.injEq] at h
    subst h
    exact ⟨rfl, rfl, rfl, rfl, rfl, rfl, by simp [ht]⟩

/-- The notes block touches only the notes, and only when they are
supplied. -/
theorem updNotes_spec {args : UpdateArgs} {e e2 : Expense}
    (h : updNotes args e = .ok e2) :
    e2.id = e.id ∧ e2.description = e.description ∧ e2.amount = e.amount ∧
    e2.category = e.category ∧ e2.date = e.date ∧ e2.tags = e.tags ∧
    (args.notes = none → e2.notes = e.notes) := by
  cases hn : args.notes with
  | none =>
    simp only [updNotes, hn, Except.ok.injEq] at h
    subst h
    exact ⟨rfl, rfl, rfl, rfl, rfl, rfl, fun _ => rfl⟩
  | some n =>
    simp only [updNotes, hn, Except.ok.injEq] at h
    subst h
    exact ⟨rfl, rfl, rfl, rfl, rfl, rfl, by simp [hn]⟩

/-- Inversion for a successful `Except` bind: the first action succeeded and
the continuation succeeded on its value. -/
theorem bind_ok_inv {ε α β : Type} {x : Except ε α} {f : α → Except ε β}
    {b : β} (h : Bind.bind x f = .ok b) : ∃ a, x = .ok a ∧ f a = .ok b := by
  cases x with
  | error err =>
    simp only [Bind.bind, Except.bind] at h
    cases h
  | ok a =>
    simp only [Bind.bind, Except.bind] at h
    exact ⟨a, rfl, h⟩

/-- A successful pass through all five field blocks preserves the id and the
creation date unconditionally, and every unsupplied field keeps its
value. -/
theorem applyUpdate_spec {cats : Option (List (String × Category))}
    {args : UpdateArgs} {e e2 : Expense}
    (h : applyUpdate cats args e = .ok e2) :
    e2.id = e.id ∧ e2.date = e.date ∧
    (args.description = none → e2.description = e.description) ∧
    (args.amount = none → e2.amount = e.amount) ∧
    (args.category = none → e2.category = e.category) ∧
    (args.tags = none → e2.tags = e.tags) ∧
    (args.notes = none → e2.notes = e.notes) := by
  rw [applyUpdate] at h
  obtain ⟨ea, h1, h⟩ := bind_ok_inv h
  obtain ⟨eb, h2, h⟩ := bind_ok_inv h
  obtain ⟨ec, h3, h⟩ := bind_ok_inv h
  obtain ⟨ed, h4, h⟩ := bind_ok_inv h
  obtain ⟨a1, a2, a3, a4, a5, a6, a7⟩ := updDescription_spec h1
  obtain ⟨b1, b2, b3, b4, b5, b6, b7⟩ := updAmount_spec h2
  obtain ⟨c1, c2, c3, c4, c5, c6, c7⟩ := updCategory_spec h3
  obtain ⟨d1, d2, d3, d4, d5, d6, d7⟩ := updTags_spec h4
  obtain ⟨n1, n2, n3, n4, n5, n6, n7⟩ := updNotes_spec h
  refine ⟨by rw [n1, d1, c1, b1, a1], by rw [n5, d5, c4, b4, a4], ?_, ?_, ?_, ?_, ?_⟩
  · intro hd
    rw [n2, d2, c2, b2, a7 hd]
  · intro ha
    rw [n3, d3, c3, b7 ha, a2]
  · intro hc
    rw [n4, d4, c7 hc, b3, a3]
  · intro ht
    rw [n6, d7 ht, c5, b5, a5]
  · intro hn
    rw [n7 hn, d6, c6, b6, a6]

/-- C10: a successful `updateExpense(id, partialFields)` leaves the category
registry, the budget table and `metadata.lastId` untouched, keeps the
expense list the same length, replaces exactly one position — whose occupant
keeps its original id and original date, and keeps every field not supplied
in the partial update — and leaves every other position of the expense list
unchanged. -/
theorem updateExpense_frame (s : Store) (expenseId : Nat) (args : UpdateArgs)
    (s' : Store) (h : updateExpense s expenseId args = .ok s') :
    s'.categories = s.categories ∧ s'.budgets = s.budgets ∧
    s'.lastId = s.lastId ∧ s'.expenses.length = s.expenses.length ∧
    ∃ (i : Nat) (hlt : i < s.expenses.length) (e2 : Expense),
      s'.expenses = s.expenses.set i e2 ∧
      (∀ j, j ≠ i → s'.expenses[j]? = s.expenses[j]?) ∧
      (s.expenses.get ⟨i, hlt⟩).id = expenseId ∧
      e2.id = (s.expenses.get ⟨i, hlt⟩).id ∧
      e2.date = (s.expenses.get ⟨i, hlt⟩).date ∧
      (args.description = none →
        e2.description = (s.expenses.get ⟨i, hlt⟩).description) ∧
      (args.amount = none → e2.amount = (s.expenses.get ⟨i, hlt⟩).amount) ∧
      (args.category = none → e2.category = (s.expenses.get ⟨i, hlt⟩).category) ∧
      (args.tags = none → e2.tags = (s.expenses.get ⟨i, hlt⟩).tags) ∧
      (args.notes = none → e2.notes = (s.expenses.get ⟨i, hlt⟩).notes) := by
  simp only [updateExpense] at h
  split at h
  case isTrue hlt =>
    rcases happ : applyUpdate s.categories args
        (s.expenses.get ⟨s.expenses.findIdx fun e => e.id == expenseId, hlt⟩)
      with err | e2 <;> rw [happ] at h
    · cases h
    · rw [Except.ok.injEq] at h
      subst h
      obtain ⟨p1, p2, p3, p4, p5, p6, p7⟩ := applyUpdate_spec happ
      refine ⟨rfl, rfl, rfl, by simp,
        s.expenses.findIdx (fun e => e.id == expenseId), hlt, e2, rfl,
        ?_, ?_, p1, p2, p3, p4, p5, p6, p7⟩
      · intro j hj
        simp only
        exact List.getElem?_set_ne (Ne.symm hj)
      · have := List.findIdx_getElem (w := hlt)
        simpa using this
  case isFalse =>
    cases h

/-- C10 applied: updating only the notes of expense 2 in `marchStore`
replaces exactly one position, with every other component of the store
unchanged. -/
theorem updateExpense_frame_witness :
    updateExpense marchStore 2 ⟨none, none, none, none, some "Team dinner", false⟩ =
      .ok { expenses := marchStore.expenses.set 1
              { id := 2, description := "Taxi", amount := 25,
                category := "transport", date := ⟨2025, 3, 20⟩, tags := [],
                notes := "Team dinner" },
            categories := marchStore.categories,
            budgets := marchStore.budgets, lastId := marchStore.lastId } ∧
    (({ expenses := marchStore.expenses.set 1
          { id := 2, description := "Taxi", amount := 25,
            category := "transport", date := ⟨2025, 3, 20⟩, tags := [],
            notes := "Team dinner" },
        categories := marchStore.categories,
        budgets := marchStore.budgets, lastId := marchStore.lastId } :
          Store).categories = marchStore.categories) := by
  refine ⟨rfl, ?_⟩
  exact (updateExpense_frame marchStore 2
    ⟨none, none, none, none, some "Team dinner", false⟩ _ rfl).1

/-! ## Claim C9: peak-day selection -/

/-- `insertDesc` never produces an empty list. -/
theorem insertDesc_ne_nil (x : String × ℚ) (acc : List (String × ℚ)) :
    insertDesc x acc ≠ [] := by
  cases acc with
  | nil => simp [insertDesc]
  | cons y l =>
    simp only [insertDesc]
    split <;> simp

/-- The stable descending sort of a nonempty list is nonempty. -/
theorem sortDescStable_ne_nil (l : List (String × ℚ)) (h : l ≠ []) :
    sortDescStable l ≠ [] := by
  cases l with
  | nil => simp at h
  | cons z rest =>
    have aux : ∀ (t : List (String × ℚ)) (acc : List (String × ℚ)), acc ≠ [] →
        t.foldl (fun acc x => insertDesc x acc) acc ≠ [] := by
      intro t
      induction t with
      | nil => intro acc hacc; simpa using hacc
      | cons x ts ih =>
        intro acc hacc
        exact ih _ (insertDesc_ne_nil x acc)
    simpa [sortDescStable] using
      aux rest (insertDesc z []) (insertDesc_ne_nil z [])

/-- The head of `insertDesc x acc`: the old head survives exactly when its
value is at least `x`'s (so an equal earlier value wins the tie). -/
theorem insertDesc_head (x : String × ℚ) (acc : List (String × ℚ)) :
    (insertDesc x acc).head? = some (match acc.head? with
      | none => x
      | some y => if x.2 ≤ y.2 then y else x) := by
  cases acc with
  | nil => rfl
  | cons y l =>
    simp only [insertDesc]
    split <;> rename_i hc <;> simp [hc]

/-- Sorting a list with one appended element is inserting that element into
the sorted list. -/
theorem sortDescStable_append_single (l : List (String × ℚ)) (x : String × ℚ) :
    sortDescStable (l ++ [x]) = insertDesc x (sortDescStable l) := by
  simp [sortDescStable, List.foldl_append]

/-- The head of the stable descending sort is the **first** entry of the
original list attaining the maximal value: every entry strictly before it is
strictly smaller, and every entry is at most it. -/
theorem sortDescStable_head_firstMax (l : List (String × ℚ)) :
    ∀ p, (sortDescStable l).head? = some p →
      ∃ l1 l2, l = l1 ++ p :: l2 ∧ (∀ q ∈ l1, q.2 < p.2) ∧
        ∀ q ∈ l, q.2 ≤ p.2 := by
  induction l using List.reverseRecOn with
  | nil => intro p h; cases h
  | append_singleton l x ih =>
    intro p h
    rw [sortDescStable_append_single, insertDesc_head] at h
    rcases hprev : (sortDescStable l).head? with - | y <;> rw [hprev] at h
    · have hl : l = [] := by
        by_contra hne
        exact sortDescStable_ne_nil l hne (List.head?_eq_none_iff.1 hprev)
      subst hl
      simp only [Option.some.injEq] at h
      subst h
      exact ⟨[], [], rfl, by simp, by simp⟩
    · obtain ⟨l1, l2, hsplit, hbefore, hall⟩ := ih y hprev
      simp only [Option.some.injEq] at h
      by_cases hle : x.2 ≤ y.2
      · rw [if_pos hle] at h
        subst h
        refine ⟨l1, l2 ++ [x], by rw [hsplit]; simp, hbefore, ?_⟩
        intro q hq
        rcases List.mem_append.1 hq with hq | hq
        · exact hall q hq
        · simp only [List.mem_singleton] at hq
          subst hq
          exact hle
      · rw [if_neg hle] at h
        subst h
        push_neg at hle
        refine ⟨l, [], rfl, ?_, ?_⟩
        · intro q hq
          exact lt_of_le_of_lt (hall q hq) hle
        · intro q hq
          rcases List.mem_append.1 hq with hq | hq
          · exact le_of_lt (lt_of_le_of_lt (hall q hq) hle)
          · simp only [List.mem_singleton] at hq
            subst hq
            exact le_refl _

/-- C9 counterexample: with the month's expenses stored out of date order —
March 5 (amount 10) before March 3 (amount 10) — the two days tie for the
maximal daily total, yet the monthly report selects `2025-03-05`, not the
earlier day `2025-03-03`: ties go to the day encountered first in stored
order, not to the earliest date. -/
theorem monthlyReport_peak_day_not_earliest_date :
    let e5 : Expense :=
      { id := 1, description := "Cinema", amount := 10, category := "food",
        date := ⟨2025, 3, 5⟩, tags := [], notes := "" }
    let e3 : Expense :=
      { id := 2, description := "Books", amount := 10, category := "food",
        date := ⟨2025, 3, 3⟩, tags := [], notes := "" }
    peakDay (monthYearFilter 3 2025 [e5, e3]) = some ("2025-03-05", 10) ∧
    ("2025-03-03", (10 : ℚ)) ∈ dailyTotals (monthYearFilter 3 2025 [e5, e3]) ∧
    ("2025-03-03" : String) ≠ "2025-03-05" := by
  refine ⟨?_, ?_, by decide⟩ <;> decide

/-- C9 amended: for a nonempty set of monthly expenses, the peak day
selected by the monthly report is an entry of the daily-totals map with
maximal total; when days tie for the maximum, the selected one is the first
entry of that map in its insertion order — the day whose expenses appear
first in the stored expense order — which coincides with ascending date
order only when the stored list is date-sorted. -/
theorem monthlyReport_peak_day_first_encountered (s : Store) (m year : Nat)
    (hne : dailyTotals (monthYearFilter m year s.expenses) ≠ []) :
    ∃ p l1 l2, peakDay (monthYearFilter m year s.expenses) = some p ∧
      dailyTotals (monthYearFilter m year s.expenses) = l1 ++ p :: l2 ∧
      (∀ q ∈ l1, q.2 < p.2) ∧
      (∀ q ∈ dailyTotals (monthYearFilter m year s.expenses), q.2 ≤ p.2) := by
  obtain ⟨p, hp⟩ : ∃ p,
      (sortDescStable (dailyTotals (monthYearFilter m year s.expenses))).head? =
        some p := by
    rcases hh : (sortDescStable
        (dailyTotals (monthYearFilter m year s.expenses))).head? with - | p
    · exact absurd (List.head?_eq_none_iff.1 hh)
        (sortDescStable_ne_nil _ hne)
    · exact ⟨p, rfl⟩
  obtain ⟨l1, l2, hsplit, hbefore, hall⟩ :=
    sortDescStable_head_firstMax _ p hp
  exact ⟨p, l1, l2, hp, hsplit, hbefore, hall⟩

/-- C9 amended, applied: on a two-day March with totals 10 and 25, the peak
day is the 25-unit day. -/
theorem monthlyReport_peak_day_first_encountered_witness :
    ∃ p l1 l2, peakDay (monthYearFilter 3 2025 marchStore.expenses) = some p ∧
      dailyTotals (monthYearFilter 3 2025 marchStore.expenses) = l1 ++ p :: l2 ∧
      (∀ q ∈ l1, q.2 < p.2) ∧
      (∀ q ∈ dailyTotals (monthYearFilter 3 2025 marchStore.expenses),
        q.2 ≤ p.2) :=
  monthlyReport_peak_day_first_encountered marchStore 3 2025 (by decide)

/-! ## Claim C8: CSV shape -/

/-- Unfolding a single-separator `intercalate` by one element. -/
theorem intercalate_single_cons_cons (sep : Char) (a b : List Char)
    (t : List (List Char)) :
    [sep].intercalate (a :: b :: t) = a ++ sep :: [sep].intercalate (b :: t) := by
  simp [List.intercalate, List.intersperse_cons_cons]

/-- A character distinct from the separator and absent from every part is
absent from the joined list. -/
theorem not_mem_intercalate_single {c sep : Char} (hsep : c ≠ sep)
    (ls : List (List Char)) (h : ∀ l ∈ ls, c ∉ l) :
    c ∉ [sep].intercalate ls := by
  induction ls with
  | nil => simp [List.intercalate]
  | cons a tail ih =>
    cases tail with
    | nil => simpa [List.intercalate] using h a (by simp)
    | cons b t =>
      rw [intercalate_single_cons_cons]
      intro hmem
      rcases List.mem_append.1 hmem with hm | hm
      · exact h a (by simp) hm
      · rcases List.mem_cons.1 hm with hm | hm
        · exact hsep hm
        · exact ih (fun l hl => h l (by simp [hl])) hm

/-- No digit of a decimal rendering is the given character, provided no
digit character is. -/
theorem natCharsAux_not_mem {c : Char}
    (hc : ∀ d, d < 10 → Nat.digitChar d ≠ c) :
    ∀ (fuel n : Nat) (acc : List Char), c ∉ acc → c ∉ natCharsAux fuel n acc := by
  intro fuel
  induction fuel with
  | zero =>
    intro n acc hacc
    simpa [natCharsAux] using hacc
  | succ fuel ih =>
    intro n acc hacc
    rw [natCharsAux]
    split
    · rename_i hlt
      simp only [List.mem_cons, not_or]
      exact ⟨fun he => hc n hlt he.symm, hacc⟩
    · refine ih (n / 10) _ ?_
      simp only [List.mem_cons, not_or]
      exact ⟨fun he => hc _ (Nat.mod_lt _ (by norm_num)) he.symm, hacc⟩

/-- `natChars` renders only digit characters. -/
theorem natChars_not_mem {c : Char}
    (hc : ∀ d, d < 10 → Nat.digitChar d ≠ c) (n : Nat) : c ∉ natChars n :=
  natCharsAux_not_mem hc _ _ _ (by simp)

/-- `pad2` renders only digit characters. -/
theorem pad2_not_mem {c : Char} (hc : ∀ d, d < 10 → Nat.digitChar d ≠ c)
    (h0 : c ≠ '0') (n : Nat) : c ∉ pad2 n := by
  rw [pad2]
  split
  · simp only [List.mem_cons, not_or]
    exact ⟨h0, natChars_not_mem hc n⟩
  · exact natChars_not_mem hc n

/-- `pad4` renders only digit characters. -/
theorem pad4_not_mem {c : Char} (hc : ∀ d, d < 10 → Nat.digitChar d ≠ c)
    (h0 : c ≠ '0') (n : Nat) : c ∉ pad4 n := by
  rw [pad4]
  split
  · simp only [List.mem_cons, not_or]
    exact ⟨h0, h0, h0, natChars_not_mem hc n⟩
  · split
    · simp only [List.mem_cons, not_or]
      exact ⟨h0, h0, natChars_not_mem hc n⟩
    · split
      · simp only [List.mem_cons, not_or]
        exact ⟨h0, natChars_not_mem hc n⟩
      · exact natChars_not_mem hc n

/-- A formatted date consists of digits and hyphens. -/
theorem formatDateChars_not_mem {c : Char}
    (hc : ∀ d, d < 10 → Nat.digitChar d ≠ c) (h0 : c ≠ '0') (hdash : c ≠ '-')
    (d : Date) : c ∉ formatDateChars d := by
  rw [formatDateChars]
  intro hmem
  rcases List.mem_append.1 hmem with hm | hm
  · exact pad4_not_mem hc h0 _ hm
  · rcases List.mem_cons.1 hm with hm | hm
    · exact hdash hm
    · rcases List.mem_append.1 hm with hm | hm
      · exact pad2_not_mem hc h0 _ hm
      · rcases List.mem_cons.1 hm with hm | hm
        · exact hdash hm
        · exact pad2_not_mem hc h0 _ hm

/-- A `toFixed(2)` rendering consists of digits, a dot and possibly a
minus sign. -/
theorem toFixed2_not_mem {c : Char}
    (hc : ∀ d, d < 10 → Nat.digitChar d ≠ c) (h0 : c ≠ '0') (hdash : c ≠ '-')
    (hdot : c ≠ '.') (q : ℚ) : c ∉ toFixed2 q := by
  rw [toFixed2]
  intro hmem
  rcases List.mem_append.1 hmem with hm | hm
  · rcases List.mem_append.1 hm with hm | hm
    · split at hm
      · simp only [List.mem_singleton] at hm
        exact hdash hm
      · simp at hm
    · exact natChars_not_mem hc _ hm
  · rcases List.mem_cons.1 hm with hm | hm
    · exact hdot hm
    · exact pad2_not_mem hc h0 _ hm

/-- The comma-sanitized notes contain no comma at all. -/
theorem comma_not_mem_sanitized (l : List Char) :
    ',' ∉ l.map (fun c => if c = ',' then ';' else c) := by
  intro hmem
  rcases List.mem_map.1 hmem with ⟨c, hcl, he⟩
  by_cases h : c = ',' <;> simp [h] at he

/-- Sanitizing the notes introduces no newline. -/
theorem newline_not_mem_sanitized {l : List Char} (h : '\n' ∉ l) :
    '\n' ∉ l.map (fun c => if c = ',' then ';' else c) := by
  intro hmem
  rcases List.mem_map.1 hmem with ⟨c, hcl, he⟩
  by_cases hcc : c = ',' <;> simp [hcc] at he
  exact h (he ▸ hcl)

/-- No digit character is a comma. -/
theorem digitChar_ne_comma : ∀ d, d < 10 → Nat.digitChar d ≠ ',' := by
  decide

/-- No digit character is a newline. -/
theorem digitChar_ne_newline : ∀ d, d < 10 → Nat.digitChar d ≠ '\n' := by
  decide

/-- Under `csvSafe`, none of the eight row fields contains a comma. -/
theorem comma_not_mem_rowFields {e : Expense} (hs : csvSafe e) :
    ∀ f ∈ csvRowFields e, ',' ∉ f := by
  obtain ⟨hd, -, hcat, -, htags, -⟩ := hs
  intro f hf
  simp only [csvRowFields, List.mem_cons, List.not_mem_nil, or_false] at hf
  rcases hf with rfl | rfl | rfl | rfl | rfl | rfl | rfl | rfl
  · exact natChars_not_mem digitChar_ne_comma _
  · exact formatDateChars_not_mem digitChar_ne_comma (by decide) (by decide) _
  · exact hd
  · exact toFixed2_not_mem digitChar_ne_comma (by decide) (by decide) (by decide) _
  · exact toFixed2_not_mem digitChar_ne_comma (by decide) (by decide) (by decide) _
  · exact hcat
  · exact not_mem_intercalate_single (by decide) _
      (fun l hl => by
        rcases List.mem_map.1 hl with ⟨t, ht, rfl⟩
        exact (htags t ht).1)
  · exact comma_not_mem_sanitized _

/-- Under `csvSafe`, a joined row line contains no newline. -/
theorem newline_not_mem_rowLine {e : Expense} (hs : csvSafe e) :
    '\n' ∉ [','].intercalate (csvRowFields e) := by
  obtain ⟨-, hd, -, hcat, htags, hnotes⟩ := hs
  refine not_mem_intercalate_single (by decide) _ ?_
  intro f hf
  simp only [csvRowFields, List.mem_cons, List.not_mem_nil, or_false] at hf
  rcases hf with rfl | rfl | rfl | rfl | rfl | rfl | rfl | rfl
  · exact natChars_not_mem digitChar_ne_newline _
  · exact formatDateChars_not_mem digitChar_ne_newline (by decide) (by decide) _
  · exact hd
  · exact toFixed2_not_mem digitChar_ne_newline (by decide) (by decide) (by decide) _
  · exact toFixed2_not_mem digitChar_ne_newline (by decide) (by decide) (by decide) _
  · exact hcat
  · exact not_mem_intercalate_single (by decide) _
      (fun l hl => by
        rcases List.mem_map.1 hl with ⟨t, ht, rfl⟩
        exact (htags t ht).2)
  · exact newline_not_mem_sanitized hnotes

/-- Splitting the document on newlines recovers the header line and one row
line per expense, provided no row line contains a newline. -/
theorem convertToCSV_lines (expenses : List Expense)
    (h : ∀ e ∈ expenses, '\n' ∉ [','].intercalate (csvRowFields e)) :
    (convertToCSV expenses).splitOn '\n' =
      [','].intercalate csvHeaderFields ::
        expenses.map fun e => [','].intercalate (csvRowFields e) := by
  rw [convertToCSV]
  refine List.splitOn_intercalate _ '\n' ?_ (by simp)
  intro l hl
  rcases List.mem_cons.1 hl with rfl | hl
  · decide
  · rcases List.mem_map.1 hl with ⟨e, he, rfl⟩
    exact h e he

/-- C8 amended: exporting `N ≥ 1` expenses whose raw-emitted fields are
separator-safe (`csvSafe`: descriptions, categories and individual tags
contain no comma — they are **not** sanitized, unlike the notes — and no
field contains a newline) yields a document of exactly `N + 1` lines, and
splitting every line by comma yields exactly 8 fields.  A comma inside a
note is neutralized, so it cannot break the alignment; a comma inside a
description, category or tag does (see the counterexample). -/
theorem convertToCSV_shape (expenses : List Expense) (_hne : expenses ≠ [])
    (hsafe : ∀ e ∈ expenses, csvSafe e) :
    ((convertToCSV expenses).splitOn '\n').length = expenses.length + 1 ∧
    ∀ line ∈ (convertToCSV expenses).splitOn '\n',
      (line.splitOn ',').length = 8 := by
  have hlines : (convertToCSV expenses).splitOn '\n' =
      [','].intercalate csvHeaderFields ::
        expenses.map fun e => [','].intercalate (csvRowFields e) :=
    convertToCSV_lines expenses fun e he => newline_not_mem_rowLine (hsafe e he)
  constructor
  · rw [hlines]
    simp
  · intro line hline
    rw [hlines] at hline
    rcases List.mem_cons.1 hline with rfl | hline
    · decide
    · rcases List.mem_map.1 hline with ⟨e, he, rfl⟩
      have : ([','].intercalate (csvRowFields e)).splitOn ',' = csvRowFields e :=
        List.splitOn_intercalate _ ',' (comma_not_mem_rowFields (hsafe e he))
          (by simp [csvRowFields])
      rw [this, csvRowFields]
      rfl

/-- C8 amended, applied to `marchStore`'s two (separator-safe) expenses:
three lines, each splitting into 8 comma-fields. -/
theorem convertToCSV_shape_witness :
    ((convertToCSV marchStore.expenses).splitOn '\n').length =
      marchStore.expenses.length + 1 ∧
    ∀ line ∈ (convertToCSV marchStore.expenses).splitOn '\n',
      (line.splitOn ',').length = 8 :=
  convertToCSV_shape marchStore.expenses (by decide)
    (by
      intro e he
      simp only [marchStore, List.mem_cons, List.not_mem_nil, or_false] at he
      rcases he with rfl | rfl <;> exact ⟨by decide, by decide, by decide,
        by decide, by decide, by decide⟩)

/-- C8 counterexample: the description is emitted without sanitization, so a
single expense whose description is `a,b` produces a data row that splits
into **9** comma-fields, not 8 — the claimed property fails when a
description contains a comma. -/
theorem convertToCSV_comma_in_description_breaks_alignment :
    ∃ line ∈ (convertToCSV
        [{ id := 1, description := "a,b", amount := 10, category := "food",
           date := ⟨2025, 3, 15⟩, tags := [], notes := "" }]).splitOn '\n',
      (line.splitOn ',').length = 9 := by
  have h1 : toFixed2 (10 : ℚ) = ['1', '0', '.', '0', '0'] := by
    have h : round ((10 : ℚ) * 100) = (1000 : ℤ) := by norm_num
    simp only [toFixed2, h]
    decide
  have h2 : toFixed2 (convertToPkr 10) =
      ['2', '8', '0', '0', '.', '0', '0'] := by
    have h : round (convertToPkr (10 : ℚ) * 100) = (280000 : ℤ) := by
      norm_num [convertToPkr, PKR_RATE]
    simp only [toFixed2, h]
    decide
  have hrow : [','].intercalate (csvRowFields
      { id := 1, description := "a,b", amount := 10, category := "food",
        date := ⟨2025, 3, 15⟩, tags := [], notes := "" }) =
      "1,2025-03-15,a,b,10.00,2800.00,food,,".data := by
    simp only [csvRowFields, h1, h2]
    decide
  rw [convertToCSV_lines _ (by
    intro e he
    simp only [List.mem_singleton] at he
    subst he
    rw [hrow]
    decide)]
  refine ⟨"1,2025-03-15,a,b,10.00,2800.00,food,,".data, ?_, by decide⟩
  simp [hrow]

end ExpenseTracker
